import Mathlib

/-!
Verification of the mesh bed-leveling subsystem (`bed.mesh.py`).

All floating-point arithmetic of the source is embedded over `ℚ` (exact
rational arithmetic).  `math.floor(x * 100) / 100` becomes
`(⌊x * 100⌋ : ℚ) / 100`, and similarly for the 0.1-precision radius floor.
The only genuinely irrational operation in the source, `math.sqrt`, occurs
in two places: in the circular point generator, where the comparison
`math.sqrt(x*x + y*y) <= radius` is embedded as the (for `radius ≥ 0`)
equivalent comparison `x^2 + y^2 ≤ radius^2`, and in
`MoveSplitter.build_move`, where the square root is kept as an abstract
function parameter of the splitter configuration.
-/

/-- PEP 485 `isclose()` as defined at the top of `bed.mesh.py`:
`abs(a-b) <= max(rel_tol * max(abs(a), abs(b)), abs_tol)`. -/
def isclose (a b : ℚ) (rel_tol : ℚ := 1/1000000000) (abs_tol : ℚ := 0) : Prop :=
  |a - b| ≤ max (rel_tol * max |a| |b|) abs_tol

instance (a b rel_tol abs_tol : ℚ) : Decidable (isclose a b rel_tol abs_tol) := by
  unfold isclose; infer_instance

/-- `constrain(val, min_val, max_val) = min(max_val, max(min_val, val))`. -/
def constrain (val min_val max_val : ℚ) : ℚ :=
  min max_val (max min_val val)

/-- `lerp(t, v0, v1) = (1. - t) * v0 + t * v1`. -/
def lerp (t v0 v1 : ℚ) : ℚ :=
  (1 - t) * v0 + t * v1

/-- `math.floor(x * 100) / 100`: floor a spacing down to the next hundredth,
as done for `x_dist`/`y_dist` in `BedMeshCalibrate._generate_points`. -/
def floor100 (x : ℚ) : ℚ :=
  (⌊x * 100⌋ : ℚ) / 100

/-- `math.floor(x * 10) / 10`: floor the mesh radius down to the next tenth. -/
def floor10 (x : ℚ) : ℚ :=
  (⌊x * 10⌋ : ℚ) / 10

/-- Python `min` over a nonempty list (`min([...])`); returns `0` on `[]`,
a case on which the source would raise `ValueError` and which no claim uses. -/
def listMin : List ℚ → ℚ
  | [] => 0
  | x :: xs => xs.foldl min x

/-- Python `max` over a nonempty list; returns `0` on `[]`. -/
def listMax : List ℚ → ℚ
  | [] => 0
  | x :: xs => xs.foldl max x

/-! ## Fade factor (`BedMesh.get_z_factor`) -/

/-- `BedMesh.get_z_factor`:
```
if z_pos >= self.fade_end: return 0.
elif z_pos >= self.fade_start: return (self.fade_end - z_pos) / self.fade_dist
else: return 1.
```
`fade_dist` is set in `__init__` to `fade_end - fade_start`. -/
def get_z_factor (fade_start fade_end fade_dist z_pos : ℚ) : ℚ :=
  if z_pos ≥ fade_end then 0
  else if z_pos ≥ fade_start then (fade_end - z_pos) / fade_dist
  else 1

/-! ## Algorithm resolution (`BedMeshCalibrate._init_mesh_params`) -/

/-- The requested interpolation algorithm; `_init_mesh_params` rejects any
configured name outside `ALGOS = ['lagrange', 'bicubic']` before the
resolution logic runs. -/
inductive ReqAlgo
  | lagrange
  | bicubic
  deriving DecidableEq, Repr

/-- The effective algorithm stored in `mesh_params['algo']`. -/
inductive Algo
  | lagrange
  | bicubic
  | direct
  deriving DecidableEq, Repr

def ReqAlgo.toAlgo : ReqAlgo → Algo
  | .lagrange => .lagrange
  | .bicubic => .bicubic

/-- The `elif` chain of `BedMeshCalibrate._init_mesh_params` that checks the
requested algorithm against the probe counts and pps values.
`.error ()` models `raise config.error(...)`. -/
def resolve_algo (req : ReqAlgo) (x_count y_count mesh_x_pps mesh_y_pps : ℕ) :
    Except Unit Algo :=
  let max_probe_cnt := max x_count y_count
  let min_probe_cnt := min x_count y_count
  if max mesh_x_pps mesh_y_pps = 0 then
    -- Interpolation disabled
    .ok .direct
  else if req = .lagrange ∧ max_probe_cnt > 6 then
    .error ()
  else if req = .bicubic ∧ min_probe_cnt < 4 then
    if max_probe_cnt > 6 then
      .error ()
    else
      .ok .lagrange
  else
    .ok req.toAlgo

/-! ## Point generation (`BedMeshCalibrate._generate_points`) -/

/-- `x_dist = math.floor(((max_x - min_x) / (x_cnt - 1)) * 100) / 100`. -/
def rect_dist (lo hi : ℚ) (cnt : ℕ) : ℚ :=
  floor100 ((hi - lo) / ((cnt : ℚ) - 1))

/-- Rectangular branch of `BedMeshCalibrate._generate_points`: serpentine
double loop, `max_x` recomputed as `min_x + x_dist * (x_cnt - 1)`, row `i`
at `pos_y = min_y + i * y_dist`, ascending X for even `i` and descending
for odd `i`. -/
def gen_points_rect (min_x min_y max_x max_y : ℚ) (x_cnt y_cnt : ℕ) :
    List (ℚ × ℚ) :=
  (List.range y_cnt).flatMap fun (i : ℕ) =>
    (List.range x_cnt).map fun (j : ℕ) =>
      (if i % 2 = 0 then
        min_x + (j : ℚ) * rect_dist min_x max_x x_cnt
       else
        (min_x + rect_dist min_x max_x x_cnt * ((x_cnt : ℚ) - 1))
          - (j : ℚ) * rect_dist min_x max_x x_cnt,
       min_y + (i : ℚ) * rect_dist min_y max_y y_cnt)

/-- The spacing of the circular bounding grid: `x_dist` computed from the
bounding square `[-radius, radius]` of the 0.1-floored radius, exactly as
in the rectangular branch. -/
def round_x_dist (radius0 : ℚ) (cnt : ℕ) : ℚ :=
  rect_dist (-(floor10 radius0)) (floor10 radius0) cnt

/-- The recomputed half-extent of the circular bounding grid:
`new_r = (x_cnt / 2) * x_dist` with Python 2 integer division `x_cnt / 2`. -/
def round_new_r (radius0 : ℚ) (cnt : ℕ) : ℚ :=
  ((cnt / 2 : ℕ) : ℚ) * round_x_dist radius0 cnt

/-- `pos_x` of the circular bounding grid at row `i`, column `j` (serpentine:
ascending for even `i`, descending for odd `i`). -/
def round_pos_x (radius0 : ℚ) (cnt : ℕ) (i j : ℕ) : ℚ :=
  if i % 2 = 0 then -(round_new_r radius0 cnt) + (j : ℚ) * round_x_dist radius0 cnt
  else round_new_r radius0 cnt - (j : ℚ) * round_x_dist radius0 cnt

/-- `pos_y` of the circular bounding grid at row `i` (`y_dist = x_dist` for
round beds). -/
def round_pos_y (radius0 : ℚ) (cnt : ℕ) (i : ℕ) : ℚ :=
  -(round_new_r radius0 cnt) + (i : ℚ) * round_x_dist radius0 cnt

/-- Circular branch of `BedMeshCalibrate._generate_points`: a grid point is
kept only when its distance from `(0,0)` is at most the 0.1-floored radius,
in which case the configured origin is added.
`math.sqrt(x*x + y*y) <= radius` is embedded as the (for `radius ≥ 0`)
equivalent `x^2 + y^2 ≤ radius^2`. -/
def gen_points_round (radius0 : ℚ) (origin : ℚ × ℚ) (cnt : ℕ) : List (ℚ × ℚ) :=
  (List.range cnt).flatMap fun (i : ℕ) =>
    (List.range cnt).filterMap fun (j : ℕ) =>
      if round_pos_x radius0 cnt i j ^ 2 + round_pos_y radius0 cnt i ^ 2
          ≤ floor10 radius0 ^ 2 then
        some (origin.1 + round_pos_x radius0 cnt i j,
              origin.2 + round_pos_y radius0 cnt i)
      else
        none

/-! ## Mesh parameters and derived grid geometry (`ZMesh.__init__`) -/

structure MeshParams where
  min_x : ℚ
  max_x : ℚ
  min_y : ℚ
  max_y : ℚ
  x_count : ℕ
  y_count : ℕ
  mesh_x_pps : ℕ
  mesh_y_pps : ℕ
  deriving DecidableEq, Repr

/-- `self.mesh_x_count = (px_cnt - 1) * mesh_x_pps + px_cnt`. -/
def MeshParams.mesh_x_count (p : MeshParams) : ℕ :=
  (p.x_count - 1) * p.mesh_x_pps + p.x_count

/-- `self.mesh_y_count = (py_cnt - 1) * mesh_y_pps + py_cnt`. -/
def MeshParams.mesh_y_count (p : MeshParams) : ℕ :=
  (p.y_count - 1) * p.mesh_y_pps + p.y_count

/-- `self.x_mult = mesh_x_pps + 1`. -/
def MeshParams.x_mult (p : MeshParams) : ℕ := p.mesh_x_pps + 1

/-- `self.y_mult = mesh_y_pps + 1`. -/
def MeshParams.y_mult (p : MeshParams) : ℕ := p.mesh_y_pps + 1

/-- `self.mesh_x_dist = (mesh_x_max - mesh_x_min) / (mesh_x_count - 1)`. -/
def MeshParams.mesh_x_dist (p : MeshParams) : ℚ :=
  (p.max_x - p.min_x) / ((p.mesh_x_count : ℚ) - 1)

def MeshParams.mesh_y_dist (p : MeshParams) : ℚ :=
  (p.max_y - p.min_y) / ((p.mesh_y_count : ℚ) - 1)

/-- `ZMesh.get_x_coordinate(index) = mesh_x_min + mesh_x_dist * index`. -/
def MeshParams.get_x_coordinate (p : MeshParams) (index : ℕ) : ℚ :=
  p.min_x + p.mesh_x_dist * index

def MeshParams.get_y_coordinate (p : MeshParams) (index : ℕ) : ℚ :=
  p.min_y + p.mesh_y_dist * index

/-! ## Lagrange sampling (`ZMesh._sample_lagrange`, `ZMesh._calc_lagrange`) -/

/-- `ZMesh._calc_lagrange(lpts, c, vec, axis)`: the full-degree Lagrange
polynomial `Σ_i z(i) * Π_{j≠i} (c - lpts[j]) / (lpts[i] - lpts[j])`, with
the matrix reads `mesh_matrix[vec][i*x_mult]` (resp. `[i*y_mult][vec]`)
abstracted into the accessor `z`. -/
def calc_lagrange (lpts : List ℚ) (c : ℚ) (z : ℕ → ℚ) : ℚ :=
  (List.range lpts.length).foldl
    (fun total i =>
      let n := (List.range lpts.length).foldl
        (fun n j => if j = i then n else n * (c - lpts.getD j 0)) 1
      let d := (List.range lpts.length).foldl
        (fun d j => if j = i then d else d * (lpts.getD i 0 - lpts.getD j 0)) 1
      total + z i * n / d) 0

/-- The initial scaffold of `_sample_lagrange` (and `_sample_bicubic`):
`0. if ((i % x_mult) or (j % y_mult)) else z_matrix[j/y_mult][i/x_mult]`,
with `j` the row index and `i` the column index. -/
def lagrange_scaffold (p : MeshParams) (z_matrix : List (List ℚ))
    (j i : ℕ) : ℚ :=
  if i % p.x_mult ≠ 0 ∨ j % p.y_mult ≠ 0 then 0
  else (z_matrix.getD (j / p.y_mult) []).getD (i / p.x_mult) 0

/-- `_get_lagrange_coords` X points: `get_x_coordinate(i * x_mult)` for
`i < x_count`. -/
def lagrange_xpts (p : MeshParams) : List ℚ :=
  (List.range p.x_count).map fun i => p.get_x_coordinate (i * p.x_mult)

def lagrange_ypts (p : MeshParams) : List ℚ :=
  (List.range p.y_count).map fun j => p.get_y_coordinate (j * p.y_mult)

/-- Cell value after the X interpolation pass of `_sample_lagrange`.  The
in-place pass writes only cells with `j % y_mult = 0` and `i % x_mult ≠ 0`
and reads only cells with `i % x_mult = 0` of the same row, which the pass
never writes, so the functional form coincides with the imperative one. -/
def lagrange_xpass (p : MeshParams) (z_matrix : List (List ℚ))
    (j i : ℕ) : ℚ :=
  if j % p.y_mult = 0 ∧ i % p.x_mult ≠ 0 then
    calc_lagrange (lagrange_xpts p) (p.get_x_coordinate i)
      (fun k => lagrange_scaffold p z_matrix j (k * p.x_mult))
  else
    lagrange_scaffold p z_matrix j i

/-- Cell value after the Y interpolation pass of `_sample_lagrange`.  The
pass writes only rows with `j % y_mult ≠ 0` and reads only rows with
`j % y_mult = 0` (as filled by the X pass), which it never writes. -/
def lagrange_ypass (p : MeshParams) (z_matrix : List (List ℚ))
    (j i : ℕ) : ℚ :=
  if j % p.y_mult ≠ 0 then
    calc_lagrange (lagrange_ypts p) (p.get_y_coordinate j)
      (fun k => lagrange_xpass p z_matrix (k * p.y_mult) i)
  else
    lagrange_xpass p z_matrix j i

/-- `ZMesh._sample_lagrange(z_matrix)`: the resulting
`mesh_y_count × mesh_x_count` dense mesh matrix. -/
def sample_lagrange (p : MeshParams) (z_matrix : List (List ℚ)) :
    List (List ℚ) :=
  (List.range p.mesh_y_count).map fun j =>
    (List.range p.mesh_x_count).map fun i => lagrange_ypass p z_matrix j i

/-- `ZMesh._sample_direct(z_matrix)`: `mesh_matrix = z_matrix`. -/
def sample_direct (_p : MeshParams) (z_matrix : List (List ℚ)) :
    List (List ℚ) :=
  z_matrix

/-! ## ZMesh state (`ZMesh.__init__`, `calc_z`, `get_z_range`, `offset_mesh`) -/

/-- The mutable state of a `ZMesh` object: `mesh_matrix` is `None` until
`build_mesh` has run. -/
structure ZMeshS where
  params : MeshParams
  matrix : Option (List (List ℚ))
  avg_z : ℚ
  mesh_offset : ℚ
  deriving DecidableEq

/-- `ZMesh._get_linear_index(coord, axis)`:
`idx = int(math.floor((coord - mesh_min) / mesh_dist))` constrained to
`[0, mesh_cnt - 2]`, then `t = (coord - cfunc(idx)) / mesh_dist` constrained
to `[0, 1]`.  The integer constrain is carried out over `ℤ`; for
`mesh_cnt ≥ 2` the constrained index is nonnegative, so `Int.toNat` is
faithful there. -/
def linear_index (mesh_min mesh_dist : ℚ) (mesh_cnt : ℕ) (cfunc : ℕ → ℚ)
    (coord : ℚ) : ℚ × ℕ :=
  let idx : ℤ := ⌊(coord - mesh_min) / mesh_dist⌋
  let idx : ℤ := min ((mesh_cnt : ℤ) - 2) (max 0 idx)
  let i : ℕ := idx.toNat
  let t := (coord - cfunc i) / mesh_dist
  (constrain t 0 1, i)

/-- `ZMesh.calc_z(x, y)`: bilinear blend of the four surrounding dense-grid
cells, or `0.` when no mesh table has been generated.  In-range indices are
guaranteed by the clamping in `_get_linear_index`; the list reads use
default `0` where Python would raise `IndexError`. -/
def ZMeshS.calc_z (m : ZMeshS) (x y : ℚ) : ℚ :=
  match m.matrix with
  | some tbl =>
    let p := m.params
    let tx := (linear_index p.min_x p.mesh_x_dist p.mesh_x_count
      p.get_x_coordinate x).1
    let xidx := (linear_index p.min_x p.mesh_x_dist p.mesh_x_count
      p.get_x_coordinate x).2
    let ty := (linear_index p.min_y p.mesh_y_dist p.mesh_y_count
      p.get_y_coordinate y).1
    let yidx := (linear_index p.min_y p.mesh_y_dist p.mesh_y_count
      p.get_y_coordinate y).2
    let z0 := lerp tx ((tbl.getD yidx []).getD xidx 0)
      ((tbl.getD yidx []).getD (xidx + 1) 0)
    let z1 := lerp tx ((tbl.getD (yidx + 1) []).getD xidx 0)
      ((tbl.getD (yidx + 1) []).getD (xidx + 1) 0)
    lerp ty z0 z1
  | none => 0

/-- `ZMesh.get_z_range()`: `(min of all cells, max of all cells)` when a
matrix is built, `(0., 0.)` otherwise. -/
def ZMeshS.get_z_range (m : ZMeshS) : ℚ × ℚ :=
  match m.matrix with
  | some tbl => (listMin (tbl.map listMin), listMax (tbl.map listMax))
  | none => (0, 0)

/-- `ZMesh.offset_mesh(offset)`: guarded by the Python truthiness test
`if self.mesh_matrix:` (both `None` and an empty list are falsy), sets
`mesh_offset` and subtracts it from every cell in place. -/
def ZMeshS.offset_mesh (m : ZMeshS) (offset : ℚ) : ZMeshS :=
  match m.matrix with
  | some [] => m
  | some tbl =>
    { m with mesh_offset := offset,
             matrix := some (tbl.map (List.map fun z => z - offset)) }
  | none => m

/-! ## Mesh installation (`BedMesh.set_mesh`) -/

/-- Outcome of `BedMesh.set_mesh`, recording the final `self.z_mesh` and
`self.fade_target`.  The two error constructors model the two
`raise self.gcode.error(...)` sites: the fade-target range check and the
fade-distance range check. -/
inductive SetMeshOutcome
  | ok (z_mesh : Option ZMeshS) (fade_target : ℚ)
  | errFadeTarget (z_mesh : Option ZMeshS) (fade_target : ℚ)
  | errFadeRange (z_mesh : Option ZMeshS) (fade_target : ℚ)
  deriving DecidableEq

/-- Second half of `BedMesh.set_mesh` once `fade_target` has been resolved:
`if self.fade_target: mesh.offset_mesh(self.fade_target)`, then the fade
distance check `if self.fade_dist <= max(abs(min_z), abs(max_z))`, which on
failure sets `z_mesh = None` and `fade_target = 0` before raising. -/
def set_mesh_offset_check (fade_target : ℚ) (m : ZMeshS) (fade_dist : ℚ) :
    SetMeshOutcome :=
  let m2 := if fade_target ≠ 0 then m.offset_mesh fade_target else m
  if fade_dist ≤ max |m2.get_z_range.1| |m2.get_z_range.2| then
    .errFadeRange none 0
  else
    .ok (some m2) fade_target

/-- `BedMesh.set_mesh(mesh)`.  `fade_enabled` stands for
`self.fade_end != self.FADE_DISABLE`; `base_fade_target` is the configured
`fade_target` option (`None` means "use the mesh average").  A configured
nonzero target outside the mesh Z range sets `z_mesh = None` and
`fade_target = 0` and raises. -/
def set_mesh (fade_enabled : Bool) (base_fade_target : Option ℚ)
    (fade_dist : ℚ) (mesh : Option ZMeshS) : SetMeshOutcome :=
  match mesh with
  | some m =>
    if fade_enabled then
      match base_fade_target with
      | none => set_mesh_offset_check m.avg_z m fade_dist
      | some t =>
        if (¬ (m.get_z_range.1 ≤ t ∧ t ≤ m.get_z_range.2)) ∧ t ≠ 0 then
          .errFadeTarget none 0
        else
          set_mesh_offset_check t m fade_dist
    else
      .ok (some m) 0
  | none => .ok none 0

/-! ## Move splitting (`MoveSplitter`) -/

/-- A toolhead position `[x, y, z, e]`. -/
structure Pos4 where
  x : ℚ
  y : ℚ
  z : ℚ
  e : ℚ
  deriving DecidableEq, Repr

/-- Configuration of `MoveSplitter`.  `sqrt` models `math.sqrt`, the one
operation of the splitter that has no exact rational embedding; it is used
only to compute `total_move_length`. -/
structure SplitterCfg where
  split_delta_z : ℚ
  move_check_distance : ℚ
  sqrt : ℚ → ℚ

/-- Per-move state of `MoveSplitter`, as set up by `build_move`. -/
structure SplitterState where
  prev_pos : Pos4
  next_pos : Pos4
  current_pos : Pos4
  z_factor : ℚ
  z_offset : ℚ
  traverse_complete : Bool
  distance_checked : ℚ
  total_move_length : ℚ
  axis_move_x : Bool
  axis_move_y : Bool
  axis_move_z : Bool
  axis_move_e : Bool

/-- `MoveSplitter._calc_z_offset(pos)`:
`z_factor * z_mesh.calc_z(pos[0], pos[1]) + z_mesh.mesh_offset`. -/
def calc_z_offset (mesh : ZMeshS) (z_factor : ℚ) (pos : Pos4) : ℚ :=
  z_factor * mesh.calc_z pos.x pos.y + mesh.mesh_offset

/-- `MoveSplitter.build_move(prev_pos, next_pos, factor)`:
`total_move_length = sqrt(Σ d² over x,y,z)`, per-axis move flags
`not isclose(d, 0., abs_tol=1e-10)`. -/
def build_move (cfg : SplitterCfg) (mesh : ZMeshS) (prev next : Pos4)
    (factor : ℚ) : SplitterState :=
  { prev_pos := prev
    next_pos := next
    current_pos := prev
    z_factor := factor
    z_offset := calc_z_offset mesh factor prev
    traverse_complete := false
    distance_checked := 0
    total_move_length := cfg.sqrt ((next.x - prev.x) ^ 2
      + (next.y - prev.y) ^ 2 + (next.z - prev.z) ^ 2)
    axis_move_x := decide (¬ isclose (next.x - prev.x) 0 (1/1000000000)
      (1/10000000000))
    axis_move_y := decide (¬ isclose (next.y - prev.y) 0 (1/1000000000)
      (1/10000000000))
    axis_move_z := decide (¬ isclose (next.z - prev.z) 0 (1/1000000000)
      (1/10000000000))
    axis_move_e := decide (¬ isclose (next.e - prev.e) 0 (1/1000000000)
      (1/10000000000)) }

/-- `MoveSplitter._set_next_move(distance_from_prev)`: lerp every moving
axis to `t = distance_from_prev / total_move_length`; `t` outside `[0, 1]`
raises (`.error ()`). -/
def set_next_move (s : SplitterState) (distance_from_prev : ℚ) :
    Except Unit SplitterState :=
  let t := distance_from_prev / s.total_move_length
  if t > 1 ∨ t < 0 then
    .error ()
  else
    .ok { s with current_pos :=
      { x := if s.axis_move_x then lerp t s.prev_pos.x s.next_pos.x
             else s.current_pos.x
        y := if s.axis_move_y then lerp t s.prev_pos.y s.next_pos.y
             else s.current_pos.y
        z := if s.axis_move_z then lerp t s.prev_pos.z s.next_pos.z
             else s.current_pos.z
        e := if s.axis_move_e then lerp t s.prev_pos.e s.next_pos.e
             else s.current_pos.e } }

/-- The `while` loop of `MoveSplitter.split()`, written with explicit fuel:
while `distance_checked + move_check_distance < total_move_length`, advance
and return an intermediate segment whenever the Z offset change reaches
`split_delta_z`.  Returning `(none, s)` means the loop ended without an
intermediate segment (fall through to the final segment). -/
def split_traverse (cfg : SplitterCfg) (mesh : ZMeshS) :
    ℕ → SplitterState → Except Unit (Option Pos4 × SplitterState)
  | 0, s => .ok (none, s)
  | fuel + 1, s =>
    if s.distance_checked + cfg.move_check_distance < s.total_move_length then
      let s1 := { s with
        distance_checked := s.distance_checked + cfg.move_check_distance }
      match set_next_move s1 s1.distance_checked with
      | .error () => .error ()
      | .ok s2 =>
        let next_z := calc_z_offset mesh s2.z_factor s2.current_pos
        if |next_z - s2.z_offset| ≥ cfg.split_delta_z then
          let s3 := { s2 with z_offset := next_z }
          .ok (some { s3.current_pos with
            z := s3.current_pos.z + s3.z_offset }, s3)
        else
          split_traverse cfg mesh fuel s2
    else
      .ok (none, s)

/-- Fuel sufficient for `split_traverse`: each iteration advances
`distance_checked` by `move_check_distance` (at least 3 by configuration),
so the loop runs fewer than
`⌈total_move_length / move_check_distance⌉ + 1` times. -/
def split_fuel (cfg : SplitterCfg) (s : SplitterState) : ℕ :=
  (⌈(s.total_move_length - s.distance_checked)
    / cfg.move_check_distance⌉).toNat + 1

/-- `MoveSplitter.split()`: returns `none` once `traverse_complete`;
otherwise runs the traversal loop only when X and/or Y moves, and on fall
through emits the final segment `next_pos` with the Z offset recomputed at
`next_pos` folded into Z, marking the traversal complete. -/
def split (cfg : SplitterCfg) (mesh : ZMeshS) (s : SplitterState) :
    Except Unit (Option Pos4 × SplitterState) :=
  if s.traverse_complete then
    .ok (none, s)
  else
    match (if s.axis_move_x || s.axis_move_y then
            split_traverse cfg mesh (split_fuel cfg s) s
           else .ok (none, s)) with
    | .error () => .error ()
    | .ok (some seg, s') => .ok (some seg, s')
    | .ok (none, s') =>
      let zo := calc_z_offset mesh s'.z_factor s'.next_pos
      let s'' := { s' with
        current_pos := { s'.next_pos with z := s'.next_pos.z + zo }
        z_offset := zo
        traverse_complete := true }
      .ok (some s''.current_pos, s'')

/-! ## Probed matrix reconstruction (`BedMeshCalibrate.probe_finalize`) -/

/-- One probed sample `(x, y, z)`. -/
structure PSample where
  x : ℚ
  y : ℚ
  z : ℚ
  deriving DecidableEq, Repr

/-- The row-boundary test of one iteration of the row-reconstruction loop
in `probe_finalize`: when `not isclose(pos[1], prev_pos[1], abs_tol=.1)`,
the current row is appended to the matrix and a fresh row is started. -/
def probe_break (acc : List (List ℚ) × List ℚ × PSample) (pos : PSample) :
    List (List ℚ) × List ℚ :=
  if ¬ isclose pos.y acc.2.2.y (1/1000000000) (1/10) then
    (acc.1 ++ [acc.2.1], ([] : List ℚ))
  else
    (acc.1, acc.2.1)

/-- One iteration of the row-reconstruction loop in `probe_finalize`: after
the row-boundary test, append `pos[2] - z_offset` at the end of the row
when `pos[0] > prev_pos[0]`, else insert it at the front.  The accumulator
is `(finished rows, current row, prev_pos)`. -/
def probe_step (z_offset : ℚ) (acc : List (List ℚ) × List ℚ × PSample)
    (pos : PSample) : List (List ℚ) × List ℚ × PSample :=
  ((probe_break acc pos).1,
   if pos.x > acc.2.2.x then (probe_break acc pos).2 ++ [pos.z - z_offset]
   else (pos.z - z_offset) :: (probe_break acc pos).2,
   pos)

/-- The row-reconstruction loop of `probe_finalize`: `prev_pos` starts as
`positions[0]`, every position (the first included) is folded through
`probe_step`, and the last open row is appended at the end.  On an empty
list the source raises `IndexError`; no claim concerns that case. -/
def build_probed_matrix (positions : List PSample) (z_offset : ℚ) :
    List (List ℚ) :=
  match positions with
  | [] => []
  | p0 :: _ =>
    let st := positions.foldl (probe_step z_offset) ([], [], p0)
    st.1 ++ [st.2.1]

/-- The y-axis length validation of `probe_finalize`:
`if len(self.probed_matrix) != y_cnt: raise self.gcode.error(...)` with the
probed table length and a dump of the table in the message, both carried
here as the error payload. -/
def validate_y_count (matrix : List (List ℚ)) (y_count : ℕ) :
    Except (ℕ × List (List ℚ)) (List (List ℚ)) :=
  if matrix.length ≠ y_count then .error (matrix.length, matrix)
  else .ok matrix

/-! ## Claims -/

/-- **C4**: with fade enabled (`fade_end > fade_start`,
`fade_dist = fade_end - fade_start`), the fade factor is `0` when
`z ≥ fade_end`, `(fade_end - z)/fade_dist` when `fade_start ≤ z < fade_end`,
and `1` when `z < fade_start`; it always lies in `[0, 1]` and is
monotonically non-increasing in `z`. -/
theorem C4_fade_factor (fade_start fade_end z : ℚ)
    (hfade : fade_start < fade_end) :
    (fade_end ≤ z →
      get_z_factor fade_start fade_end (fade_end - fade_start) z = 0) ∧
    (fade_start ≤ z → z < fade_end →
      get_z_factor fade_start fade_end (fade_end - fade_start) z
        = (fade_end - z) / (fade_end - fade_start)) ∧
    (z < fade_start →
      get_z_factor fade_start fade_end (fade_end - fade_start) z = 1) ∧
    0 ≤ get_z_factor fade_start fade_end (fade_end - fade_start) z ∧
    get_z_factor fade_start fade_end (fade_end - fade_start) z ≤ 1 ∧
    (∀ z', z ≤ z' →
      get_z_factor fade_start fade_end (fade_end - fade_start) z'
        ≤ get_z_factor fade_start fade_end (fade_end - fade_start) z) := by
  have hd : (0 : ℚ) < fade_end - fade_start := by linarith
  have hbounds : ∀ w : ℚ,
      0 ≤ get_z_factor fade_start fade_end (fade_end - fade_start) w ∧
      get_z_factor fade_start fade_end (fade_end - fade_start) w ≤ 1 := by
    intro w
    unfold get_z_factor
    split_ifs with h1 h2
    · exact ⟨le_refl 0, by norm_num⟩
    · refine ⟨div_nonneg (by linarith [not_le.mp h1]) hd.le, ?_⟩
      rw [div_le_one hd]; linarith
    · exact ⟨by norm_num, le_refl 1⟩
  have hmono : ∀ z₁ z₂ : ℚ, z₁ ≤ z₂ →
      get_z_factor fade_start fade_end (fade_end - fade_start) z₂
        ≤ get_z_factor fade_start fade_end (fade_end - fade_start) z₁ := by
    intro z₁ z₂ h12
    have hb₁ := hbounds z₁
    have hb₂ := hbounds z₂
    unfold get_z_factor at *
    split_ifs at * with h1 h2 h3 h4 <;>
      first
      | linarith
      | { rw [div_le_div_iff₀ hd hd]; nlinarith }
  refine ⟨?_, ?_, ?_, (hbounds z).1, (hbounds z).2, fun z' h => hmono z z' h⟩
  · intro h; unfold get_z_factor; rw [if_pos h]
  · intro h1 h2; unfold get_z_factor
    rw [if_neg (by linarith), if_pos h1]
  · intro h; unfold get_z_factor
    rw [if_neg (by linarith), if_neg (by linarith)]

/-- Witness for C4 at `fade_start = 1`, `fade_end = 3`. -/
theorem C4_witness :
    get_z_factor 1 3 (3 - 1) 4 = 0 ∧
    get_z_factor 1 3 (3 - 1) 2 = (3 - 2) / (3 - 1) ∧
    get_z_factor 1 3 (3 - 1) 0 = 1 ∧
    get_z_factor 1 3 (3 - 1) 2 ≤ get_z_factor 1 3 (3 - 1) (3/2) :=
  ⟨(C4_fade_factor 1 3 4 (by norm_num)).1 (by norm_num),
   (C4_fade_factor 1 3 2 (by norm_num)).2.1 (by norm_num) (by norm_num),
   (C4_fade_factor 1 3 0 (by norm_num)).2.2.1 (by norm_num),
   (C4_fade_factor 1 3 (3/2) (by norm_num)).2.2.2.2.2 2 (by norm_num)⟩

/-- **C3**: algorithm resolution.  `max(pps) = 0` forces `direct` with no
error; otherwise `lagrange` with more than 6 points on an axis errors;
otherwise `bicubic` with fewer than 4 points on an axis errors when the
other axis exceeds 6 and silently downgrades to `lagrange` otherwise; in
all remaining cases the requested algorithm is kept. -/
theorem C3_resolve_algo (req : ReqAlgo) (xc yc px py : ℕ) :
    (max px py = 0 → resolve_algo req xc yc px py = .ok .direct) ∧
    (max px py ≠ 0 → req = .lagrange → 6 < max xc yc →
      resolve_algo req xc yc px py = .error ()) ∧
    (max px py ≠ 0 → req = .bicubic → min xc yc < 4 → 6 < max xc yc →
      resolve_algo req xc yc px py = .error ()) ∧
    (max px py ≠ 0 → req = .bicubic → min xc yc < 4 → max xc yc ≤ 6 →
      resolve_algo req xc yc px py = .ok .lagrange) ∧
    (max px py ≠ 0 → ¬ (req = .lagrange ∧ 6 < max xc yc) →
      ¬ (req = .bicubic ∧ min xc yc < 4) →
      resolve_algo req xc yc px py = .ok req.toAlgo) := by
  unfold resolve_algo
  refine ⟨?_, ?_, ?_, ?_, ?_⟩
  · intro h; rw [if_pos h]
  · intro h hreq hcnt
    rw [if_neg h, if_pos ⟨hreq, hcnt⟩]
  · intro h hreq hmin hmax
    subst hreq
    rw [if_neg h, if_neg (by simp), if_pos ⟨rfl, hmin⟩, if_pos hmax]
  · intro h hreq hmin hmax
    subst hreq
    rw [if_neg h, if_neg (by simp), if_pos ⟨rfl, hmin⟩,
      if_neg (by omega)]
  · intro h h1 h2
    rw [if_neg h, if_neg h1, if_neg h2]

/-- Witness for C3: one concrete instance of each branch. -/
theorem C3_witness :
    resolve_algo .lagrange 3 3 0 0 = .ok .direct ∧
    resolve_algo .lagrange 8 3 2 2 = .error () ∧
    resolve_algo .bicubic 3 8 2 2 = .error () ∧
    resolve_algo .bicubic 3 3 2 2 = .ok .lagrange ∧
    resolve_algo .bicubic 4 6 2 2 = .ok .bicubic :=
  ⟨(C3_resolve_algo .lagrange 3 3 0 0).1 (by decide),
   (C3_resolve_algo .lagrange 8 3 2 2).2.1 (by decide) rfl (by decide),
   (C3_resolve_algo .bicubic 3 8 2 2).2.2.1 (by decide) rfl (by decide)
     (by decide),
   (C3_resolve_algo .bicubic 3 3 2 2).2.2.2.1 (by decide) rfl (by decide)
     (by decide),
   (C3_resolve_algo .bicubic 4 6 2 2).2.2.2.2 (by decide) (by decide)
     (by decide)⟩

/-- **C10**: on a `ZMesh` whose matrix was never built (`mesh_matrix is
None`), `calc_z` returns `0.` for every `(x, y)` and `get_z_range`
returns `(0., 0.)`. -/
theorem C10_unbuilt_mesh_zero (m : ZMeshS) (h : m.matrix = none) :
    (∀ x y : ℚ, m.calc_z x y = 0) ∧ m.get_z_range = (0, 0) := by
  constructor
  · intro x y; unfold ZMeshS.calc_z; rw [h]
  · unfold ZMeshS.get_z_range; rw [h]

/-- Witness for C10 on a concrete unbuilt mesh. -/
theorem C10_witness :
    (ZMeshS.mk ⟨0, 200, 0, 200, 3, 3, 2, 2⟩ none 0 0).calc_z 5 7 = 0 ∧
    (ZMeshS.mk ⟨0, 200, 0, 200, 3, 3, 2, 2⟩ none 0 0).get_z_range = (0, 0) :=
  ⟨(C10_unbuilt_mesh_zero _ rfl).1 5 7, (C10_unbuilt_mesh_zero _ rfl).2⟩

/-- **C5**: installing a mesh with fade enabled and a configured nonzero
fade target outside the mesh Z range raises, leaves the active mesh `None`
and the fade target `0` (no partial install); a configured target of
exactly `0` never triggers this error. -/
theorem C5_fade_target_install (m : ZMeshS) (fade_dist t : ℚ) :
    (t ≠ 0 → ¬ (m.get_z_range.1 ≤ t ∧ t ≤ m.get_z_range.2) →
      set_mesh true (some t) fade_dist (some m) = .errFadeTarget none 0) ∧
    (∀ zm ft, set_mesh true (some 0) fade_dist (some m)
      ≠ .errFadeTarget zm ft) := by
  constructor
  · intro ht hrange
    unfold set_mesh
    simp only [if_true]
    rw [if_pos ⟨hrange, ht⟩]
  · intro zm ft
    unfold set_mesh set_mesh_offset_check
    simp only [if_true]
    rw [if_neg (by simp)]
    split_ifs <;> intro hc <;> exact SetMeshOutcome.noConfusion hc

/-- Concrete ZMesh state used by the C5 witness: a built 2×2 matrix with
Z range `(1, 4)`. -/
def c5mesh : ZMeshS :=
  ⟨⟨0, 200, 0, 200, 3, 3, 2, 2⟩, some [[1, 2], [3, 4]], 0, 0⟩

/-- Witness for C5 at fade target `10`, outside the range `[1, 4]`. -/
theorem C5_witness :
    set_mesh true (some 10) 5 (some c5mesh) = .errFadeTarget none 0 ∧
    set_mesh true (some 0) 5 (some c5mesh) ≠ .errFadeTarget none 0 :=
  ⟨(C5_fade_target_install c5mesh 5 10).1 (by norm_num) (by decide),
   (C5_fade_target_install c5mesh 5 0).2 none 0⟩

/-- Length of a serpentine double loop: `m` rows of `n` entries each. -/
theorem flatMap_range_length {α : Type} (m n : ℕ) (f : ℕ → ℕ → α) :
    ((List.range m).flatMap fun i => (List.range n).map (f i)).length
      = m * n := by
  induction m with
  | zero => simp
  | succ m ih =>
    rw [List.range_succ, List.flatMap_append]
    simp [ih, Nat.succ_mul]

/-- Element `i * n + j` of a serpentine double loop is the inner value at
row `i`, column `j`. -/
theorem flatMap_range_getElem {α : Type} (m n : ℕ) (f : ℕ → ℕ → α)
    (i j : ℕ) (hi : i < m) (hj : j < n) :
    ((List.range m).flatMap fun i => (List.range n).map (f i))[i * n + j]?
      = some (f i j) := by
  induction m with
  | zero => omega
  | succ m ih =>
    rw [List.range_succ, List.flatMap_append]
    rcases Nat.lt_succ_iff_lt_or_eq.mp hi with h | h
    · rw [List.getElem?_append_left]
      · exact ih h
      · rw [flatMap_range_length]
        have h1 : i + 1 ≤ m := h
        have h2 : (i + 1) * n ≤ m * n := Nat.mul_le_mul_right n h1
        have h3 : i * n + n = (i + 1) * n := (Nat.succ_mul i n).symm
        omega
    · subst h
      rw [List.getElem?_append_right (by rw [flatMap_range_length]; omega)]
    
      rw [flatMap_range_length]
      simp only [List.flatMap_cons, List.flatMap_nil, List.append_nil]
      have : i * n + j - i * n = j := by omega
      rw [this, List.getElem?_map, List.getElem?_range hj]
      rfl

/-- **C1**: for a valid rectangular configuration the generator returns
exactly `x_cnt * y_cnt` points in serpentine order: the point at position
`i * x_cnt + j` lies in row `i` at `pos_y = min_y + i * y_dist` (rows
strictly increasing in Y), with X ascending from `min_x` by `x_dist` steps
for even `i` and descending from the recomputed
`max_x = min_x + x_dist * (x_cnt - 1)` for odd `i`, where
`x_dist = floor(((max_x - min_x)/(x_cnt-1))*100)/100`. -/
theorem C1_rect_serpentine (min_x min_y max_x max_y : ℚ) (x_cnt y_cnt : ℕ)
    (hxc : 3 ≤ x_cnt) (hyc : 3 ≤ y_cnt)
    (hx : min_x < max_x) (hy : min_y < max_y)
    (hxd : 1 < rect_dist min_x max_x x_cnt)
    (hyd : 1 < rect_dist min_y max_y y_cnt) :
    (gen_points_rect min_x min_y max_x max_y x_cnt y_cnt).length
      = x_cnt * y_cnt ∧
    (∀ i j : ℕ, i < y_cnt → j < x_cnt →
      (gen_points_rect min_x min_y max_x max_y x_cnt y_cnt)[i * x_cnt + j]?
        = some
          (if i % 2 = 0 then
            min_x + (j : ℚ) * rect_dist min_x max_x x_cnt
           else
            (min_x + rect_dist min_x max_x x_cnt * ((x_cnt : ℚ) - 1))
              - (j : ℚ) * rect_dist min_x max_x x_cnt,
           min_y + (i : ℚ) * rect_dist min_y max_y y_cnt)) ∧
    (∀ i i' : ℕ, i < i' →
      min_y + (i : ℚ) * rect_dist min_y max_y y_cnt
        < min_y + (i' : ℚ) * rect_dist min_y max_y y_cnt) := by
  refine ⟨?_, ?_, ?_⟩
  · unfold gen_points_rect
    rw [flatMap_range_length]
    exact Nat.mul_comm y_cnt x_cnt
  · intro i j hi hj
    exact flatMap_range_getElem y_cnt x_cnt _ i j hi hj
  · intro i i' h
    have hpos : (0 : ℚ) < rect_dist min_y max_y y_cnt := by linarith
    have : (i : ℚ) < (i' : ℚ) := by exact_mod_cast h
    have := mul_lt_mul_of_pos_right this hpos
    linarith

/-- Witness for C1 on the 3×3 configuration over `[0, 200]²`. -/
theorem C1_witness :
    (gen_points_rect 0 0 200 200 3 3).length = 3 * 3 ∧
    (gen_points_rect 0 0 200 200 3 3)[1 * 3 + 1]?
      = some
        (if 1 % 2 = 0 then (0 : ℚ) + (1 : ℚ) * rect_dist 0 200 3
         else ((0 : ℚ) + rect_dist 0 200 3 * ((3 : ℚ) - 1))
           - (1 : ℚ) * rect_dist 0 200 3,
         (0 : ℚ) + (1 : ℚ) * rect_dist 0 200 3) ∧
    (0 : ℚ) + (0 : ℚ) * rect_dist 0 200 3
      < 0 + (1 : ℚ) * rect_dist 0 200 3 :=
  have h := C1_rect_serpentine 0 0 200 200 3 3 (by norm_num) (by norm_num)
    (by norm_num) (by norm_num) (by norm_num [rect_dist, floor100])
    (by norm_num [rect_dist, floor100])
  ⟨h.1, h.2.1 1 1 (by omega) (by omega), h.2.2 0 1 (by omega)⟩

/-- **C9**: for a valid circular configuration, membership in the generated
point list is exactly "a bounding-grid point within the (0.1-floored)
radius of `(0,0)`, shifted by the origin" — grid points farther than the
radius are omitted — and consequently every returned point lies within the
radius of the configured origin (stated via the squared distance, which for
a nonnegative radius is equivalent to `sqrt(dx²+dy²) ≤ radius`). -/
theorem C9_round_points (radius0 : ℚ) (origin : ℚ × ℚ) (cnt : ℕ)
    (hr : 0 < radius0) (hodd : cnt % 2 = 1) (hcnt : 3 ≤ cnt) :
    (∀ p : ℚ × ℚ, p ∈ gen_points_round radius0 origin cnt ↔
      ∃ i < cnt, ∃ j < cnt,
        round_pos_x radius0 cnt i j ^ 2 + round_pos_y radius0 cnt i ^ 2
          ≤ floor10 radius0 ^ 2 ∧
        p = (origin.1 + round_pos_x radius0 cnt i j,
             origin.2 + round_pos_y radius0 cnt i)) ∧
    (∀ p ∈ gen_points_round radius0 origin cnt,
      (p.1 - origin.1) ^ 2 + (p.2 - origin.2) ^ 2 ≤ floor10 radius0 ^ 2) := by
  have hiff : ∀ p : ℚ × ℚ, p ∈ gen_points_round radius0 origin cnt ↔
      ∃ i < cnt, ∃ j < cnt,
        round_pos_x radius0 cnt i j ^ 2 + round_pos_y radius0 cnt i ^ 2
          ≤ floor10 radius0 ^ 2 ∧
        p = (origin.1 + round_pos_x radius0 cnt i j,
             origin.2 + round_pos_y radius0 cnt i) := by
    intro p
    simp only [gen_points_round, List.mem_flatMap, List.mem_filterMap,
      List.mem_range]
    constructor
    · rintro ⟨i, hi, j, hj, hp⟩
      split_ifs at hp with h
      exact ⟨i, hi, j, hj, h, (Option.some_inj.mp hp).symm⟩
    · rintro ⟨i, hi, j, hj, h, hp⟩
      exact ⟨i, hi, j, hj, by rw [if_pos h, hp]⟩
  refine ⟨hiff, ?_⟩
  intro p hp
  obtain ⟨i, _, j, _, h, hp⟩ := (hiff p).mp hp
  subst hp
  simpa using h

/-- Witness for C9: radius 50, origin `(0,0)`, 5×5 bounding grid; the kept
point `(0, -50)` lies on the circle. -/
theorem C9_witness :
    ((0 : ℚ), (-50 : ℚ)) ∈ gen_points_round 50 (0, 0) 5 ∧
    (((0 : ℚ), (-50 : ℚ)).1 - (0, 0).1) ^ 2
      + (((0 : ℚ), (-50 : ℚ)).2 - (0, 0).2) ^ 2 ≤ floor10 50 ^ 2 := by
  have h := C9_round_points 50 (0, 0) 5 (by norm_num) (by norm_num)
    (by norm_num)
  have hmem : ((0 : ℚ), (-50 : ℚ)) ∈ gen_points_round 50 (0, 0) 5 := by
    rw [h.1]
    refine ⟨0, by norm_num, 2, by norm_num, ?_, ?_⟩ <;>
      norm_num [round_pos_x, round_pos_y, round_new_r, round_x_dist,
        rect_dist, floor10, floor100]
  exact ⟨hmem, h.2 _ hmem⟩

/-- Folding `min` over a list shifted by `-d` shifts the result by `-d`. -/
theorem foldl_min_sub (d : ℚ) (xs : List ℚ) : ∀ a : ℚ,
    ((xs.map fun z => z - d).foldl min (a - d)) = xs.foldl min a - d := by
  induction xs with
  | nil => intro a; simp
  | cons x xs ih =>
    intro a
    simp only [List.map_cons, List.foldl_cons]
    rw [min_sub_sub_right a x d]
    exact ih (min a x)

theorem foldl_max_sub (d : ℚ) (xs : List ℚ) : ∀ a : ℚ,
    ((xs.map fun z => z - d).foldl max (a - d)) = xs.foldl max a - d := by
  induction xs with
  | nil => intro a; simp
  | cons x xs ih =>
    intro a
    simp only [List.map_cons, List.foldl_cons]
    rw [max_sub_sub_right a x d]
    exact ih (max a x)

/-- `min` of a nonempty list shifted by `-d`. -/
theorem listMin_map_sub (d : ℚ) (l : List ℚ) (h : l ≠ []) :
    listMin (l.map fun z => z - d) = listMin l - d := by
  cases l with
  | nil => exact absurd rfl h
  | cons x xs =>
    simp only [List.map_cons, listMin]
    exact foldl_min_sub d xs x

theorem listMax_map_sub (d : ℚ) (l : List ℚ) (h : l ≠ []) :
    listMax (l.map fun z => z - d) = listMax l - d := by
  cases l with
  | nil => exact absurd rfl h
  | cons x xs =>
    simp only [List.map_cons, listMax]
    exact foldl_max_sub d xs x

/-- Matrix-level version of `listMin_map_sub`. -/
theorem matrix_min_sub (d : ℚ) (t : List (List ℚ)) (hne : t ≠ [])
    (hrows : ∀ r ∈ t, r ≠ []) :
    listMin ((t.map (List.map fun z => z - d)).map listMin)
      = listMin (t.map listMin) - d := by
  have h1 : (t.map (List.map fun z => z - d)).map listMin
      = (t.map listMin).map (fun z => z - d) := by
    rw [List.map_map, List.map_map]
    apply List.map_congr_left
    intro r hr
    exact listMin_map_sub d r (hrows r hr)
  rw [h1]
  apply listMin_map_sub
  simpa using hne

theorem matrix_max_sub (d : ℚ) (t : List (List ℚ)) (hne : t ≠ [])
    (hrows : ∀ r ∈ t, r ≠ []) :
    listMax ((t.map (List.map fun z => z - d)).map listMax)
      = listMax (t.map listMax) - d := by
  have h1 : (t.map (List.map fun z => z - d)).map listMax
      = (t.map listMax).map (fun z => z - d) := by
    rw [List.map_map, List.map_map]
    apply List.map_congr_left
    intro r hr
    exact listMax_map_sub d r (hrows r hr)
  rw [h1]
  apply listMax_map_sub
  simpa using hne

/-- **C6**: on a built mesh, `offset_mesh(d)` subtracts `d` from every cell
and sets `mesh_offset = d`, so `get_z_range()` afterwards returns the old
range shifted by `-d`; the operation is not idempotent — a second
`offset_mesh(d)` leaves every cell at its original value minus `2*d`. -/
theorem C6_offset_mesh (m : ZMeshS) (tbl : List (List ℚ)) (d : ℚ)
    (hm : m.matrix = some tbl) (hne : tbl ≠ [])
    (hrows : ∀ r ∈ tbl, r ≠ []) :
    (m.offset_mesh d).matrix = some (tbl.map (List.map fun z => z - d)) ∧
    (m.offset_mesh d).mesh_offset = d ∧
    (m.offset_mesh d).get_z_range
      = (m.get_z_range.1 - d, m.get_z_range.2 - d) ∧
    ((m.offset_mesh d).offset_mesh d).matrix
      = some (tbl.map (List.map fun z => z - 2 * d)) := by
  obtain ⟨p, mat, avg, off⟩ := m
  simp only at hm
  subst hm
  cases tbl with
  | nil => exact absurd rfl hne
  | cons r rs =>
    refine ⟨rfl, rfl, ?_, ?_⟩
    · show (ZMeshS.mk p
        (some (((r :: rs)).map (List.map fun z => z - d))) avg d).get_z_range
        = _
      unfold ZMeshS.get_z_range
      simp only [List.map_cons]
      rw [Prod.mk.injEq]
      constructor
      · have := matrix_min_sub d (r :: rs) hne hrows
        simpa using this
      · have := matrix_max_sub d (r :: rs) hne hrows
        simpa using this
    · show some ((((r :: rs).map (List.map fun z => z - d)).map
        (List.map fun z => z - d))) = _
      rw [List.map_map]
      congr 1
      apply List.map_congr_left
      intro l _
      show (l.map fun z => z - d).map (fun z => z - d) = _
      rw [List.map_map]
      apply List.map_congr_left
      intro z _
      show z - d - d = z - 2 * d
      ring

/-- Concrete built mesh shared by several witnesses: a 2×2 matrix
`[[1, 2], [3, 4]]` with Z range `(1, 4)`. -/
def demo_mesh2 : ZMeshS :=
  ⟨⟨0, 200, 0, 200, 3, 3, 2, 2⟩, some [[1, 2], [3, 4]], 0, 0⟩

/-- Witness for C6 on `demo_mesh2` with `d = 1`. -/
theorem C6_witness :
    (demo_mesh2.offset_mesh 1).mesh_offset = 1 ∧
    (demo_mesh2.offset_mesh 1).get_z_range
      = (demo_mesh2.get_z_range.1 - 1, demo_mesh2.get_z_range.2 - 1) ∧
    ((demo_mesh2.offset_mesh 1).offset_mesh 1).matrix
      = some ([[1, 2], [3, 4]].map (List.map fun z => z - 2 * 1)) :=
  have h := C6_offset_mesh demo_mesh2 [[1, 2], [3, 4]] 1 rfl (by simp)
    (by simp)
  ⟨h.2.1, h.2.2.1, h.2.2.2⟩

/-- **C7**: a move whose X and Y deltas are both at most `1e-10` in absolute
value (pure Z and/or E move) makes the first `split()` after `build_move`
return exactly one segment equal to `next_pos` with the Z-correction offset
(recomputed at `next_pos`) added to its Z, and marks the traversal
complete; every further `split()` before another `build_move` returns
`None`. -/
theorem C7_pure_z_split (cfg : SplitterCfg) (mesh : ZMeshS) (prev next : Pos4)
    (factor : ℚ)
    (hx : |next.x - prev.x| ≤ 1/10000000000)
    (hy : |next.y - prev.y| ≤ 1/10000000000) :
    ∃ s' : SplitterState,
      split cfg mesh (build_move cfg mesh prev next factor)
        = .ok (some { next with
            z := next.z + calc_z_offset mesh factor next }, s') ∧
      s'.traverse_complete = true ∧
      split cfg mesh s' = .ok (none, s') := by
  have hisx : isclose (next.x - prev.x) 0 (1/1000000000) (1/10000000000) := by
    unfold isclose
    rw [sub_zero]
    exact le_trans hx (le_max_right _ _)
  have hisy : isclose (next.y - prev.y) 0 (1/1000000000) (1/10000000000) := by
    unfold isclose
    rw [sub_zero]
    exact le_trans hy (le_max_right _ _)
  have h2 : (build_move cfg mesh prev next factor).axis_move_x = false := by
    show decide (¬ isclose (next.x - prev.x) 0 (1/1000000000)
      (1/10000000000)) = false
    exact decide_eq_false_iff_not.mpr (not_not_intro hisx)
  have h3 : (build_move cfg mesh prev next factor).axis_move_y = false := by
    show decide (¬ isclose (next.y - prev.y) 0 (1/1000000000)
      (1/10000000000)) = false
    exact decide_eq_false_iff_not.mpr (not_not_intro hisy)
  refine ⟨{ build_move cfg mesh prev next factor with
      current_pos := { next with
        z := next.z + calc_z_offset mesh factor next }
      z_offset := calc_z_offset mesh factor next
      traverse_complete := true }, ?_, rfl, rfl⟩
  show split cfg mesh (build_move cfg mesh prev next factor) = _
  unfold split
  rw [h2, h3]
  rfl

/-- Concrete splitter configuration for the C7 witness (`split_delta_z`
0.025, `move_check_distance` 5, identity stand-in for `math.sqrt`, which
this move never consults). -/
def demo_cfg : SplitterCfg := ⟨1/40, 5, fun q => q⟩

/-- Witness for C7: a pure Z+E move from `(1,2,3,4)` to `(1,2,5,6)`. -/
theorem C7_witness :
    ∃ s', split demo_cfg demo_mesh2
        (build_move demo_cfg demo_mesh2 ⟨1, 2, 3, 4⟩ ⟨1, 2, 5, 6⟩ 1)
      = .ok (some { (⟨1, 2, 5, 6⟩ : Pos4) with
          z := (⟨1, 2, 5, 6⟩ : Pos4).z
            + calc_z_offset demo_mesh2 1 ⟨1, 2, 5, 6⟩ }, s') ∧
      s'.traverse_complete = true ∧
      split demo_cfg demo_mesh2 s' = .ok (none, s') :=
  C7_pure_z_split demo_cfg demo_mesh2 ⟨1, 2, 3, 4⟩ ⟨1, 2, 5, 6⟩ 1
    (by norm_num) (by norm_num)

/-- The mesh parameters of the C2 scenario: `mesh_min=(0,0)`,
`mesh_max=(200,200)`, `probe_count=(3,3)`, `mesh_pps=(2,2)`. -/
def c2params : MeshParams := ⟨0, 200, 0, 200, 3, 3, 2, 2⟩

/-- The dense Lagrange mesh built from a generic 3×3 probed matrix in the
C2 scenario. -/
def c2mesh (z00 z01 z02 z10 z11 z12 z20 z21 z22 : ℚ) : List (List ℚ) :=
  sample_lagrange c2params [[z00, z01, z02], [z10, z11, z12], [z20, z21, z22]]

/-- Cell `[j][i]` of a dense mesh matrix (row `j`, column `i`). -/
def cell (m : List (List ℚ)) (j i : ℕ) : Option ℚ :=
  (m[j]?).bind fun r => r[i]?

/-- **C2, counterexample**: in the scenario `mesh_min=(0,0)`,
`mesh_max=(200,200)`, `probe_count=(3,3)`, `mesh_pps=(2,2)`, lagrange, the
dense mesh is not 5×5: `mesh_count = (3-1)*2+3 = 7`, so the claimed
conjunction fails (on the concrete probed matrix `[[1..9]]`). -/
theorem C2_counterexample :
    ¬ (gen_points_rect 0 0 200 200 3 3
        = [(0, 0), (100, 0), (200, 0), (200, 100), (100, 100), (0, 100),
           (0, 200), (100, 200), (200, 200)] ∧
       (c2mesh 1 2 3 4 5 6 7 8 9).length = 5) := by
  rintro ⟨-, h⟩
  have h7 : (c2mesh 1 2 3 4 5 6 7 8 9).length = 7 := rfl
  omega

/-- **C2, amended**: the nine generated points are as listed (serpentine),
and the dense mesh is 7×7 (`(3-1)*2+3`), whose cells at indices
`[0,0],[0,3],[0,6],[3,0],...,[6,6]` (multiples of `x_mult = y_mult = 3`)
equal the nine probed input values. -/
theorem C2_scenario (z00 z01 z02 z10 z11 z12 z20 z21 z22 : ℚ) :
    gen_points_rect 0 0 200 200 3 3
      = [(0, 0), (100, 0), (200, 0), (200, 100), (100, 100), (0, 100),
         (0, 200), (100, 200), (200, 200)] ∧
    (c2mesh z00 z01 z02 z10 z11 z12 z20 z21 z22).length = 7 ∧
    (c2mesh z00 z01 z02 z10 z11 z12 z20 z21 z22).map List.length
      = [7, 7, 7, 7, 7, 7, 7] ∧
    cell (c2mesh z00 z01 z02 z10 z11 z12 z20 z21 z22) 0 0 = some z00 ∧
    cell (c2mesh z00 z01 z02 z10 z11 z12 z20 z21 z22) 0 3 = some z01 ∧
    cell (c2mesh z00 z01 z02 z10 z11 z12 z20 z21 z22) 0 6 = some z02 ∧
    cell (c2mesh z00 z01 z02 z10 z11 z12 z20 z21 z22) 3 0 = some z10 ∧
    cell (c2mesh z00 z01 z02 z10 z11 z12 z20 z21 z22) 3 3 = some z11 ∧
    cell (c2mesh z00 z01 z02 z10 z11 z12 z20 z21 z22) 3 6 = some z12 ∧
    cell (c2mesh z00 z01 z02 z10 z11 z12 z20 z21 z22) 6 0 = some z20 ∧
    cell (c2mesh z00 z01 z02 z10 z11 z12 z20 z21 z22) 6 3 = some z21 ∧
    cell (c2mesh z00 z01 z02 z10 z11 z12 z20 z21 z22) 6 6 = some z22 := by
  refine ⟨?_, rfl, rfl, rfl, rfl, rfl, rfl, rfl, rfl, rfl, rfl, rfl⟩
  norm_num [gen_points_rect, rect_dist, floor100,
    show List.range 3 = [0, 1, 2] from rfl]

/-- `isclose` is reflexive at the 0.1 row tolerance. -/
theorem isclose_self_tol (y : ℚ) : isclose y y (1/1000000000) (1/10) := by
  unfold isclose
  rw [sub_self, abs_zero]
  exact le_max_of_le_right (by norm_num)

/-- A structured probe row: scan direction (`true` = ascending X), the
row's Y coordinate, and the `(x, z)` samples in probe order. -/
def flatten_rows (rows : List (Bool × ℚ × List (ℚ × ℚ))) : List PSample :=
  rows.flatMap fun r => r.2.2.map fun p => ⟨p.1, r.2.1, p.2⟩

/-- The reconstructed (ascending-X) row of Z values: probe order for an
ascending scan, reversed probe order for a descending scan, all with
`z_offset` subtracted. -/
def rowF (z_offset : ℚ) (r : Bool × ℚ × List (ℚ × ℚ)) : List ℚ :=
  if r.1 then r.2.2.map fun p => p.2 - z_offset
  else (r.2.2.map fun p => p.2 - z_offset).reverse

/-- In-row step, scanning positive: same Y, larger X appends at the end. -/
theorem probe_step_in_row (zo : ℚ) (matrix : List (List ℚ)) (row : List ℚ)
    (prev pos : PSample) (hy : isclose pos.y prev.y (1/1000000000) (1/10))
    (hx : prev.x < pos.x) :
    probe_step zo (matrix, row, prev) pos
      = (matrix, row ++ [pos.z - zo], pos) := by
  unfold probe_step probe_break
  rw [if_neg (not_not_intro hy), if_pos hx]

/-- In-row step, scanning negative (or stationary): same Y, X not larger
inserts at the front. -/
theorem probe_step_in_row_le (zo : ℚ) (matrix : List (List ℚ))
    (row : List ℚ) (prev pos : PSample)
    (hy : isclose pos.y prev.y (1/1000000000) (1/10))
    (hx : ¬ prev.x < pos.x) :
    probe_step zo (matrix, row, prev) pos
      = (matrix, (pos.z - zo) :: row, pos) := by
  unfold probe_step probe_break
  rw [if_neg (not_not_intro hy), if_neg hx]

/-- Row-boundary step: the finished row is pushed and the new row holds the
single new Z value whichever way the X comparison goes. -/
theorem probe_step_break (zo : ℚ) (matrix : List (List ℚ)) (row : List ℚ)
    (prev pos : PSample)
    (hy : ¬ isclose pos.y prev.y (1/1000000000) (1/10)) :
    probe_step zo (matrix, row, prev) pos
      = (matrix ++ [row], [pos.z - zo], pos) := by
  unfold probe_step probe_break
  rw [if_pos hy]
  split_ifs <;> rfl

/-- Folding an ascending-X constant-Y run: every sample is appended at the
end of the current row, reconstructing probe order. -/
theorem probe_run_asc (zo y : ℚ) : ∀ (s : List (ℚ × ℚ))
    (matrix : List (List ℚ)) (row : List ℚ) (prev : PSample),
    prev.y = y → List.Chain' (· < ·) (prev.x :: s.map Prod.fst) →
    ∃ pe : PSample, pe.y = y ∧
      List.foldl (probe_step zo) (matrix, row, prev)
          (s.map fun p => (⟨p.1, y, p.2⟩ : PSample))
        = (matrix, row ++ s.map (fun p => p.2 - zo), pe) := by
  intro s
  induction s with
  | nil =>
    intro matrix row prev hy _
    exact ⟨prev, hy, by simp⟩
  | cons p rest ih =>
    intro matrix row prev hy hch
    rw [List.map_cons, List.chain'_cons] at hch
    simp only [List.map_cons, List.foldl_cons]
    rw [probe_step_in_row zo matrix row prev ⟨p.1, y, p.2⟩
      (by show isclose y prev.y _ _; rw [hy]; exact isclose_self_tol y) hch.1]
    obtain ⟨pe, hpe, hfold⟩ := ih matrix (row ++ [p.2 - zo])
      ⟨p.1, y, p.2⟩ rfl hch.2
    exact ⟨pe, hpe, by rw [hfold]; simp⟩

/-- Folding a descending-X constant-Y run: every sample is inserted at the
front of the current row, reconstructing reversed probe order. -/
theorem probe_run_desc (zo y : ℚ) : ∀ (s : List (ℚ × ℚ))
    (matrix : List (List ℚ)) (row : List ℚ) (prev : PSample),
    prev.y = y → List.Chain' (· > ·) (prev.x :: s.map Prod.fst) →
    ∃ pe : PSample, pe.y = y ∧
      List.foldl (probe_step zo) (matrix, row, prev)
          (s.map fun p => (⟨p.1, y, p.2⟩ : PSample))
        = (matrix, (s.map (fun p => p.2 - zo)).reverse ++ row, pe) := by
  intro s
  induction s with
  | nil =>
    intro matrix row prev hy _
    exact ⟨prev, hy, by simp⟩
  | cons p rest ih =>
    intro matrix row prev hy hch
    rw [List.map_cons, List.chain'_cons] at hch
    simp only [List.map_cons, List.foldl_cons]
    rw [probe_step_in_row_le zo matrix row prev ⟨p.1, y, p.2⟩
      (by show isclose y prev.y _ _; rw [hy]; exact isclose_self_tol y)
      (not_lt.mpr hch.1.le)]
    obtain ⟨pe, hpe, hfold⟩ := ih matrix ((p.2 - zo) :: row)
      ⟨p.1, y, p.2⟩ rfl hch.2
    refine ⟨pe, hpe, by rw [hfold]; simp⟩

/-- Processing one full non-first row: the boundary step pushes the
finished row, then the run lemmas rebuild the row in ascending-X order. -/
theorem probe_proc_row (zo : ℚ) (asc : Bool) (y : ℚ) (s : List (ℚ × ℚ))
    (hs : s ≠ [])
    (hmono : if asc then List.Chain' (· < ·) (s.map Prod.fst)
             else List.Chain' (· > ·) (s.map Prod.fst))
    (matrix : List (List ℚ)) (row : List ℚ) (prev : PSample)
    (hb : ¬ isclose y prev.y (1/1000000000) (1/10)) :
    ∃ pe : PSample, pe.y = y ∧
      List.foldl (probe_step zo) (matrix, row, prev)
          (s.map fun p => (⟨p.1, y, p.2⟩ : PSample))
        = (matrix ++ [row], rowF zo (asc, y, s), pe) := by
  cases s with
  | nil => exact absurd rfl hs
  | cons p rest =>
    simp only [List.map_cons, List.foldl_cons]
    rw [probe_step_break zo matrix row prev ⟨p.1, y, p.2⟩ hb]
    cases asc with
    | true =>
      simp only [if_true, List.map_cons, List.chain'_cons'] at hmono
      obtain ⟨pe, hpe, hfold⟩ := probe_run_asc zo y rest (matrix ++ [row])
        [p.2 - zo] ⟨p.1, y, p.2⟩ rfl (by
          rw [List.chain'_cons']
          exact hmono)
      refine ⟨pe, hpe, ?_⟩
      rw [hfold]
      simp [rowF]
    | false =>
      simp only [Bool.false_eq_true, if_false, List.map_cons,
        List.chain'_cons'] at hmono
      obtain ⟨pe, hpe, hfold⟩ := probe_run_desc zo y rest (matrix ++ [row])
        [p.2 - zo] ⟨p.1, y, p.2⟩ rfl (by
          rw [List.chain'_cons']
          exact hmono)
      refine ⟨pe, hpe, ?_⟩
      rw [hfold]
      simp [rowF]

/-- Processing the first row: `prev_pos` starts as the first sample itself,
so no boundary fires and the first Z lands in a fresh row either way. -/
theorem probe_proc_first_row (zo : ℚ) (asc : Bool) (y : ℚ) (p : ℚ × ℚ)
    (rest : List (ℚ × ℚ))
    (hmono : if asc then List.Chain' (· < ·) ((p :: rest).map Prod.fst)
             else List.Chain' (· > ·) ((p :: rest).map Prod.fst)) :
    ∃ pe : PSample, pe.y = y ∧
      List.foldl (probe_step zo) ([], [], ⟨p.1, y, p.2⟩)
          ((p :: rest).map fun q => (⟨q.1, y, q.2⟩ : PSample))
        = ([], rowF zo (asc, y, p :: rest), pe) := by
  simp only [List.map_cons, List.foldl_cons]
  rw [probe_step_in_row_le zo [] [] ⟨p.1, y, p.2⟩ ⟨p.1, y, p.2⟩
    (isclose_self_tol y) (lt_irrefl _)]
  cases asc with
  | true =>
    simp only [if_true, List.map_cons, List.chain'_cons'] at hmono
    obtain ⟨pe, hpe, hfold⟩ := probe_run_asc zo y rest [] [p.2 - zo]
      ⟨p.1, y, p.2⟩ rfl (by
        rw [List.chain'_cons']
        exact hmono)
    refine ⟨pe, hpe, ?_⟩
    rw [hfold]
    simp [rowF]
  | false =>
    simp only [Bool.false_eq_true, if_false, List.map_cons,
      List.chain'_cons'] at hmono
    obtain ⟨pe, hpe, hfold⟩ := probe_run_desc zo y rest [] [p.2 - zo]
      ⟨p.1, y, p.2⟩ rfl (by
        rw [List.chain'_cons']
        exact hmono)
    refine ⟨pe, hpe, ?_⟩
    rw [hfold]
    simp [rowF]

theorem flatten_rows_cons (r : Bool × ℚ × List (ℚ × ℚ))
    (rest : List (Bool × ℚ × List (ℚ × ℚ))) :
    flatten_rows (r :: rest)
      = (r.2.2.map fun p => (⟨p.1, r.2.1, p.2⟩ : PSample))
        ++ flatten_rows rest := by
  simp [flatten_rows]

/-- Processing a nonempty tail of rows, each opened by a boundary step:
the matrix accumulates the closed rows in order, the last row stays in the
open-row buffer. -/
theorem probe_proc_rows (zo : ℚ) :
    ∀ (rest : List (Bool × ℚ × List (ℚ × ℚ)))
      (r : Bool × ℚ × List (ℚ × ℚ))
      (matrix : List (List ℚ)) (row : List ℚ) (prev : PSample),
    (∀ t ∈ r :: rest, t.2.2 ≠ []) →
    (∀ t ∈ r :: rest, if t.1 then List.Chain' (· < ·) (t.2.2.map Prod.fst)
      else List.Chain' (· > ·) (t.2.2.map Prod.fst)) →
    List.Chain' (fun a b => ¬ isclose b.2.1 a.2.1 (1/1000000000) (1/10))
      (r :: rest) →
    ¬ isclose r.2.1 prev.y (1/1000000000) (1/10) →
    ∃ pe : PSample, pe.y = ((r :: rest).getLast (by simp)).2.1 ∧
      List.foldl (probe_step zo) (matrix, row, prev)
          (flatten_rows (r :: rest))
        = (matrix ++ [row] ++ ((r :: rest).dropLast.map (rowF zo)),
           rowF zo ((r :: rest).getLast (by simp)), pe) := by
  intro rest
  induction rest with
  | nil =>
    intro r matrix row prev hne hmono hchain hb
    obtain ⟨pe, hpe, hfold⟩ := probe_proc_row zo r.1 r.2.1 r.2.2
      (hne r (by simp)) (hmono r (by simp)) matrix row prev hb
    refine ⟨pe, by simpa using hpe, ?_⟩
    rw [flatten_rows_cons]
    simp only [flatten_rows, List.flatMap_nil, List.append_nil]
    rw [hfold]
    simp
  | cons r' rest' ih =>
    intro r matrix row prev hne hmono hchain hb
    obtain ⟨pe, hpe, hfold⟩ := probe_proc_row zo r.1 r.2.1 r.2.2
      (hne r (by simp)) (hmono r (by simp)) matrix row prev hb
    have hb' : ¬ isclose r'.2.1 pe.y (1/1000000000) (1/10) := by
      rw [hpe]
      exact (List.chain'_cons.mp hchain).1
    obtain ⟨pe', hpe', hfold'⟩ := ih r' (matrix ++ [row]) (rowF zo r) pe
      (fun t ht => hne t (List.mem_cons_of_mem _ ht))
      (fun t ht => hmono t (List.mem_cons_of_mem _ ht))
      (List.chain'_cons.mp hchain).2 hb'
    refine ⟨pe', by simpa [List.getLast_cons_cons] using hpe', ?_⟩
    rw [flatten_rows_cons, List.foldl_append, hfold, hfold']
    simp [List.getLast_cons_cons, List.append_assoc]

theorem build_probed_matrix_cons (zo : ℚ) (p0 : PSample) (ps : List PSample) :
    build_probed_matrix (p0 :: ps) zo
      = ((p0 :: ps).foldl (probe_step zo) ([], [], p0)).1
        ++ [((p0 :: ps).foldl (probe_step zo) ([], [], p0)).2.1] := rfl

/-- **C8, amended**: iterating probed samples in probe order, a new row is
started exactly when `isclose(y, prev_y, rel_tol=1e-9, abs_tol=0.1)` fails;
within a row a sample with larger X than its predecessor is appended at the
end and one with smaller X at the front, so for serpentine input (rows of
constant Y whose X coordinates are strictly monotone in either direction,
consecutive rows non-close in Y) every reconstructed row lists Z values
(minus `z_offset`) in ascending-X order; when the number of reconstructed
rows differs from `y_count`, the y-length validation raises with the row
count and a dump of the malformed matrix. -/
theorem C8_probed_matrix (zo : ℚ)
    (rows : List (Bool × ℚ × List (ℚ × ℚ)))
    (hne : rows ≠ [])
    (hrows : ∀ r ∈ rows, r.2.2 ≠ [])
    (hmono : ∀ r ∈ rows, if r.1 then List.Chain' (· < ·) (r.2.2.map Prod.fst)
             else List.Chain' (· > ·) (r.2.2.map Prod.fst))
    (hchain : List.Chain'
      (fun a b => ¬ isclose b.2.1 a.2.1 (1/1000000000) (1/10)) rows) :
    build_probed_matrix (flatten_rows rows) zo = rows.map (rowF zo) ∧
    (build_probed_matrix (flatten_rows rows) zo).length = rows.length ∧
    (∀ y_count : ℕ, rows.length ≠ y_count →
      validate_y_count (build_probed_matrix (flatten_rows rows) zo) y_count
        = .error (rows.length, rows.map (rowF zo))) := by
  have hmain : build_probed_matrix (flatten_rows rows) zo
      = rows.map (rowF zo) := by
    cases rows with
    | nil => exact absurd rfl hne
    | cons r rest =>
      obtain ⟨asc, y, s⟩ := r
      cases s with
      | nil => exact absurd rfl (hrows (asc, y, []) (List.mem_cons_self _ _))
      | cons p srest =>
        obtain ⟨pe, hpe, hfold1⟩ := probe_proc_first_row zo asc y p srest
          (hmono (asc, y, p :: srest) (List.mem_cons_self _ _))
        simp only [List.map_cons] at hfold1
        cases rest with
        | nil =>
          rw [show flatten_rows [(asc, y, p :: srest)]
              = (⟨p.1, y, p.2⟩ : PSample)
                :: (srest.map fun q => (⟨q.1, y, q.2⟩ : PSample)) by
            simp [flatten_rows]]
          rw [build_probed_matrix_cons, hfold1]
          simp
        | cons r' rest2 =>
          have hflat : flatten_rows ((asc, y, p :: srest) :: r' :: rest2)
              = (⟨p.1, y, p.2⟩ : PSample)
                :: ((srest.map fun q => (⟨q.1, y, q.2⟩ : PSample))
                  ++ flatten_rows (r' :: rest2)) := by
            rw [flatten_rows_cons]
            simp
          obtain ⟨pe', hpe', hfold2⟩ := probe_proc_rows zo rest2 r' []
            (rowF zo (asc, y, p :: srest)) pe
            (fun t ht => hrows t (List.mem_cons_of_mem _ ht))
            (fun t ht => hmono t (List.mem_cons_of_mem _ ht))
            (List.chain'_cons.mp hchain).2
            (by rw [hpe]; exact (List.chain'_cons.mp hchain).1)
          rw [hflat, build_probed_matrix_cons]
          rw [show ((⟨p.1, y, p.2⟩ : PSample)
              :: ((srest.map fun q => (⟨q.1, y, q.2⟩ : PSample))
                ++ flatten_rows (r' :: rest2)))
              = ((⟨p.1, y, p.2⟩ : PSample)
                :: (srest.map fun q => (⟨q.1, y, q.2⟩ : PSample)))
                ++ flatten_rows (r' :: rest2) by simp]
          rw [List.foldl_append, hfold1, hfold2]
          simp only [List.nil_append]
          have hsplit : (r' :: rest2)
              = (r' :: rest2).dropLast ++ [(r' :: rest2).getLast (by simp)] :=
            (List.dropLast_append_getLast (by simp)).symm
          conv_rhs => rw [hsplit]
          simp [List.map_append]
  refine ⟨hmain, ?_, ?_⟩
  · rw [hmain, List.length_map]
  · intro y_count hyc
    rw [hmain]
    unfold validate_y_count
    rw [List.length_map, if_pos hyc]

/-- **C8, counterexample**: the claim says a new row starts exactly when
`|y - prev_y| > 0.1`, but the source tests `isclose` with its default
relative tolerance `1e-9` as well: at `y = 2e8` the consecutive Y values
differ by `0.15 > 0.1` yet `isclose` holds
(`0.15 ≤ 1e-9 * (2e8 + 0.15)`), so the two samples land in one row instead
of the two rows the claim predicts. -/
theorem C8_counterexample :
    (1/10 : ℚ) < |(200000000 + 3/20 : ℚ) - 200000000| ∧
    build_probed_matrix
      [⟨0, 200000000, 5⟩, ⟨1, 200000000 + 3/20, 7⟩] 0 = [[5, 7]] := by
  have e1 : (200000000 + 3/20 : ℚ) - 200000000 = 3/20 := by ring
  constructor
  · rw [e1, abs_of_pos (by norm_num : (0 : ℚ) < 3/20)]
    norm_num
  · have hc : isclose (200000000 + 3/20 : ℚ) 200000000
        (1/1000000000) (1/10) := by
      unfold isclose
      rw [e1, abs_of_pos (by norm_num : (0 : ℚ) < 3/20),
        abs_of_pos (by norm_num : (0 : ℚ) < 200000000 + 3/20),
        abs_of_pos (by norm_num : (0 : ℚ) < 200000000),
        max_eq_left (by norm_num : (200000000 : ℚ) ≤ 200000000 + 3/20)]
      exact le_max_of_le_left (by norm_num)
    have h1 : probe_step 0 ([], [], (⟨0, 200000000, 5⟩ : PSample))
        ⟨0, 200000000, 5⟩ = ([], [5 - 0], ⟨0, 200000000, 5⟩) :=
      probe_step_in_row_le 0 [] [] _ _ (isclose_self_tol _) (lt_irrefl _)
    have h2 : probe_step 0 ([], [5 - 0], (⟨0, 200000000, 5⟩ : PSample))
        ⟨1, 200000000 + 3/20, 7⟩
        = ([], [5 - 0] ++ [7 - 0], ⟨1, 200000000 + 3/20, 7⟩) :=
      probe_step_in_row 0 [] [5 - 0] _ _ hc (by norm_num)
    rw [build_probed_matrix_cons, List.foldl_cons, h1, List.foldl_cons, h2,
      List.foldl_nil]
    norm_num

/-- The structured serpentine input of the C8 witness: an ascending row at
`y = 0` and a descending row at `y = 10`. -/
def c8rows : List (Bool × ℚ × List (ℚ × ℚ)) :=
  [(true, 0, [(0, 1), (10, 2)]), (false, 10, [(10, 3), (0, 4)])]

/-- Witness for C8 on `c8rows` with `z_offset = 1` and a wrong `y_count`. -/
theorem C8_witness :
    build_probed_matrix (flatten_rows c8rows) 1 = c8rows.map (rowF 1) ∧
    validate_y_count (build_probed_matrix (flatten_rows c8rows) 1) 3
      = .error (c8rows.length, c8rows.map (rowF 1)) := by
  have h := C8_probed_matrix 1 c8rows (by simp [c8rows])
    (by intro r hr
        simp only [c8rows, List.mem_cons, List.not_mem_nil, or_false] at hr
        rcases hr with rfl | rfl <;> simp)
    (by intro r hr
        simp only [c8rows, List.mem_cons, List.not_mem_nil, or_false] at hr
        rcases hr with rfl | rfl <;> norm_num [List.chain'_cons])
    (by simp only [c8rows, List.chain'_cons, List.chain'_singleton,
          and_true]
        unfold isclose
        rw [show (10 : ℚ) - 0 = 10 by ring,
          abs_of_pos (by norm_num : (0 : ℚ) < 10), abs_zero,
          max_eq_left (by norm_num : (0 : ℚ) ≤ 10),
          max_eq_right (by norm_num : (1/1000000000 : ℚ) * 10 ≤ 1/10)]
        norm_num)
  exact ⟨h.1, h.2.2 3 (by simp [c8rows])⟩
